import Mathlib

/-!
Verification development for the WSB Agent repository.

The repository's core pipeline (ticker extraction, sentiment scoring,
attention aggregation, market-data cache, signal engine) is described in
the specification; the repository sources present here are the README,
the design document and the React dashboard.  Pipeline components are
therefore modelled from the specification text; the dashboard hook and
components are embedded directly from the TypeScript sources.

All numeric scores are modelled as rationals (the sources use
floating-point doubles; the properties at issue are order/arithmetic
properties at small magnitudes, where the rational model is faithful).
-/

namespace WSB

/-- Clamp a rational to the interval [lo, hi]. -/
def clamp (lo hi x : ℚ) : ℚ := if x ≤ lo then lo else if hi ≤ x then hi else x

/-- Trading action emitted by the Signal Engine (src Signal.action in the
dashboard's useAgentData hook). -/
inductive Action where
  | BUY
  | SELL
  | HOLD
deriving DecidableEq, Repr

/-- Modelled from the spec: the Signal Engine's per-feature weight vector
(configuration "per-feature weight vector"); the engine itself is not in
the provided sources. -/
structure Weights where
  sentiment : ℚ
  velocity : ℚ
  volume : ℚ
  momentum : ℚ
deriving DecidableEq, Repr

/-- Modelled from the spec: the normalized component values entering the
blend, one per feature of the fixed enumerated feature set
{sentiment, velocity, volume, momentum}. -/
structure Components where
  sentiment : ℚ
  velocity : ℚ
  volume : ℚ
  momentum : ℚ
deriving DecidableEq, Repr

/-- Modelled from the spec: the raw weighted sum of the four normalized
components under the configured weight vector. -/
def weightedSum (w : Weights) (c : Components) : ℚ :=
  w.sentiment * c.sentiment + w.velocity * c.velocity +
    w.volume * c.volume + w.momentum * c.momentum

/-- Modelled from the spec: "compute the composite score as a weighted sum
of the normalized sentiment, velocity, volume, and momentum components
using a configurable weight vector (weights need not sum to 1; the
composite is clamped to [-1,1] after summation)". -/
def compositeScore (w : Weights) (c : Components) : ℚ :=
  clamp (-1) 1 (weightedSum w c)

/-- Modelled from the spec: "composite ≥ buy-threshold → BUY; composite ≤
sell-threshold → SELL; otherwise HOLD". -/
def selectAction (buyTh sellTh composite : ℚ) : Action :=
  if buyTh ≤ composite then .BUY
  else if composite ≤ sellTh then .SELL
  else .HOLD

/-- The components of the spec's worked example. -/
def exampleComponents : Components :=
  { sentiment := 8/10, velocity := 6/10, volume := 3/10, momentum := 0 }

/-- The weight vector of the spec's worked example. -/
def exampleWeights : Weights :=
  { sentiment := 4/10, velocity := 3/10, volume := 2/10, momentum := 1/10 }

/-- The Signal record (src Signal interface in useAgentData: ticker, score,
action, confidence, reasoning, components, timestamp; the open metadata
mapping is omitted, no claim depends on it).  `components` is a mapping
from feature-name to normalized contribution. -/
structure Signal where
  ticker : String
  score : ℚ
  action : Action
  confidence : ℚ
  reasoning : String
  components : List (String × ℚ)
  timestamp : String
deriving DecidableEq, Repr

/-- Modelled from the spec: per-ticker AttentionWindowState owned by the
Attention Aggregator ({ticker, mention_count, engagement_sum,
sentiment_weighted_sum, timestamps}; window bounds are determined by the
as-of instant and window size at snapshot time). -/
structure AttentionWindowState where
  ticker : String
  mention_count : ℕ
  engagement_sum : ℚ
  sentiment_weighted_sum : ℚ
  timestamps : List ℚ
deriving DecidableEq, Repr

/-- Modelled from the spec: MarketFeatureSnapshot {ticker, n_day_return,
volatility, volume_ratio} derived by the Market Data Cache. -/
structure MarketFeatureSnapshot where
  ticker : String
  n_day_return : ℚ
  volatility : ℚ
  volume_ratio : ℚ
deriving DecidableEq, Repr

/-- Modelled from the spec: the Signal Engine's configuration (minimum
mention count, weight vector, BUY/SELL thresholds, per-feature
normalization bounds, window size, "notable" magnitude threshold). -/
structure EngineConfig where
  minMentions : ℕ
  weights : Weights
  buyThreshold : ℚ
  sellThreshold : ℚ
  velocityBound : ℚ
  volumeCeiling : ℚ
  momentumBound : ℚ
  windowHours : ℚ
  notableThreshold : ℚ
deriving DecidableEq, Repr

/-- Sign of a rational: 1, -1 or 0. -/
def sgn (x : ℚ) : ℚ := if 0 < x then 1 else if x < 0 then -1 else 0

/-- The fixed enumerated feature set that keys a Signal's components. -/
def featureNames : List String := ["sentiment", "velocity", "volume", "momentum"]

/-- Modelled from the spec: normalize each raw feature onto [-1,1] using
configuration-defined bounds (linear map through the bound, clamped). -/
def normalizeBy (bound x : ℚ) : ℚ := clamp (-1) 1 (x / bound)

/-- Modelled from the spec: the engine's normalized components for one
ticker - average sentiment (sentiment-weighted sum normalized by mention
count), mention velocity through its configured bound, volume ratio
through its configured ceiling and N-day return through its configured
bound, each clamped to [-1,1] before blending. -/
def engineComponents (cfg : EngineConfig) (att : AttentionWindowState)
    (mkt : MarketFeatureSnapshot) : Components :=
  { sentiment := clamp (-1) 1 (att.sentiment_weighted_sum / att.mention_count)
    velocity := normalizeBy cfg.velocityBound ((att.mention_count : ℚ) / cfg.windowHours)
    volume := normalizeBy cfg.volumeCeiling mkt.volume_ratio
    momentum := normalizeBy cfg.momentumBound mkt.n_day_return }

/-- The components record rendered as the Signal's components mapping,
keyed by the fixed feature names. -/
def componentsList (c : Components) : List (String × ℚ) :=
  [("sentiment", c.sentiment), ("velocity", c.velocity),
   ("volume", c.volume), ("momentum", c.momentum)]

/-- Modelled from the spec: confidence derived from (a) how far the
composite exceeds the triggering threshold and (b) agreement in sign
across the contributing components. -/
def confidenceOf (cfg : EngineConfig) (comp : ℚ) (c : Components) : ℚ :=
  let excess : ℚ :=
    if cfg.buyThreshold ≤ comp then comp - cfg.buyThreshold
    else if comp ≤ cfg.sellThreshold then cfg.sellThreshold - comp
    else 0
  let agree : ℕ := (componentsList c).countP (fun p => decide (sgn p.2 = sgn comp))
  clamp 0 1 (excess + (agree : ℚ) / 8)

/-- Modelled from the spec: one templated reasoning clause naming the
feature and its direction. -/
def reasoningClause (p : String × ℚ) : String :=
  (if 0 ≤ p.2 then "Strong positive " else "Strong negative ") ++ p.1

/-- Insert one labelled contribution into a list sorted by descending
absolute value (stable insertion sort step). -/
def insertByAbs (p : String × ℚ) : List (String × ℚ) → List (String × ℚ)
  | [] => [p]
  | q :: rest => if |q.2| < |p.2| then p :: q :: rest else q :: insertByAbs p rest

/-- Stable sort of labelled contributions by descending absolute value. -/
def sortByAbs : List (String × ℚ) → List (String × ℚ)
  | [] => []
  | p :: rest => insertByAbs p (sortByAbs rest)

/-- Modelled from the spec: reasoning assembled deterministically from the
components that individually exceed the notable magnitude threshold, in
descending order of absolute contribution. -/
def reasoningOf (cfg : EngineConfig) (c : Components) : String :=
  String.intercalate "; "
    ((sortByAbs ((componentsList c).filter
        (fun p => decide (cfg.notableThreshold ≤ |p.2|)))).map reasoningClause)

/-- Modelled from the spec: the Signal Engine's compute(ticker) for one
ticker - declines with the insufficient-evidence outcome (none) when the
AttentionWindowState mention count is below the configured minimum,
otherwise blends the normalized components into a Signal. -/
def compute (cfg : EngineConfig) (att : AttentionWindowState)
    (mkt : MarketFeatureSnapshot) (now : String) : Option Signal :=
  if att.mention_count < cfg.minMentions then none
  else
    let c := engineComponents cfg att mkt
    let comp := compositeScore cfg.weights c
    some { ticker := att.ticker
           score := comp
           action := selectAction cfg.buyThreshold cfg.sellThreshold comp
           confidence := confidenceOf cfg comp c
           reasoning := reasoningOf cfg c
           components := componentsList c
           timestamp := now }

/-- Modelled from the spec: the Attention Aggregator's record appends the
mention time to the ticker's retained timestamp sequence. -/
def recordMention (timestamps : List ℚ) (t : ℚ) : List ℚ := timestamps ++ [t]

/-- Modelled from the spec: lazy eviction on snapshot - drop timestamps
older than as_of minus the window size. -/
def retainedTimestamps (windowHours asOf : ℚ) (ts : List ℚ) : List ℚ :=
  ts.filter (fun t => decide (asOf - windowHours ≤ t))

/-- Modelled from the spec: mention velocity is the count of retained
timestamps divided by the elapsed window duration in hours. -/
def mentionVelocity (windowHours asOf : ℚ) (ts : List ℚ) : ℚ :=
  ((retainedTimestamps windowHours asOf ts).length : ℚ) / windowHours

/-- Sample engine configuration for witnesses: unit bounds, thresholds
±0.5, minimum three mentions. -/
def sampleCfg : EngineConfig :=
  { minMentions := 3
    weights := { sentiment := 1, velocity := 1, volume := 1, momentum := 1 }
    buyThreshold := 1/2
    sellThreshold := -1/2
    velocityBound := 1
    volumeCeiling := 1
    momentumBound := 1
    windowHours := 1
    notableThreshold := 10 }

/-- Sample attention state for witnesses. -/
def sampleAtt : AttentionWindowState :=
  { ticker := "GME", mention_count := 3, engagement_sum := 30
    sentiment_weighted_sum := 3, timestamps := [0, 1, 2] }

/-- Sample attention state with too few mentions for witnesses. -/
def thinAtt : AttentionWindowState :=
  { ticker := "GME", mention_count := 2, engagement_sum := 20
    sentiment_weighted_sum := 2, timestamps := [0, 1] }

/-- Sample (extreme) market features for witnesses. -/
def sampleMkt : MarketFeatureSnapshot :=
  { ticker := "GME", n_day_return := 0, volatility := 5, volume_ratio := 2 }

/-- The Signal that compute produces on the sample inputs. -/
def sampleSignal : Signal :=
  { ticker := "GME", score := 1, action := .BUY, confidence := 7/8, reasoning := ""
    components := [("sentiment", 1), ("velocity", 1), ("volume", 1), ("momentum", 0)]
    timestamp := "t" }

/-- Modelled from the spec: the Sentiment Scorer's negation words (the
scorer is not in the provided sources; "apply standard adjustments for
negation"). -/
def negationWords : List String := ["not", "no", "never", "isnt", "dont", "without"]

/-- Modelled from the spec: the Sentiment Scorer's intensifier words
("intensifiers scale the following token's contribution"). -/
def intensifierWords : List String := ["very", "extremely", "super", "so"]

/-- Modelled from the spec: negation inverts and dampens the following
token's contribution; the dampening factor lies in (0,1). -/
def negationDamp : ℚ := 1/2

/-- Modelled from the spec: intensifiers scale the following token's
contribution upward. -/
def intensifierScale : ℚ := 3/2

/-- An immutable valence lexicon: mapping of tokens to valence weights. -/
structure Lexicon where
  entries : List (String × ℚ)
deriving DecidableEq, Repr

/-- Modelled from the spec: resolve a token's valence weight by checking
the domain lexicon first and falling back to the general-purpose valence
lexicon; none when the token bears no sentiment. -/
def valence (domain general : Lexicon) (t : String) : Option ℚ :=
  match domain.entries.lookup t with
  | some w => some w
  | none => general.entries.lookup t

/-- Scope state of the scorer's modifier handling: the token after a
negation is inverted and dampened, the token after an intensifier is
scaled; the scope is one token. -/
inductive Mode where
  | plain
  | negate
  | intensify
deriving DecidableEq, Repr

/-- Modelled from the spec: the contribution of one token under the
current modifier mode, together with the mode for the next token. -/
def tokenContrib (dl gl : Lexicon) (m : Mode) (t : String) : ℚ × Mode :=
  if t ∈ negationWords then (0, .negate)
  else if t ∈ intensifierWords then (0, .intensify)
  else
    match valence dl gl t with
    | none => (0, .plain)
    | some w =>
      match m with
      | .plain => (w, .plain)
      | .negate => (-(negationDamp * w), .plain)
      | .intensify => (intensifierScale * w, .plain)

/-- Per-token contributions of a token sequence, starting in the given
modifier mode. -/
def contribs (dl gl : Lexicon) : Mode → List String → List ℚ
  | _, [] => []
  | m, t :: rest =>
    (tokenContrib dl gl m t).1 :: contribs dl gl (tokenContrib dl gl m t).2 rest

/-- The modifier mode left over after processing a token sequence. -/
def modeAfter (dl gl : Lexicon) : Mode → List String → Mode
  | m, [] => m
  | m, t :: rest => modeAfter dl gl (tokenContrib dl gl m t).2 rest

/-- Modelled from the spec: the summed weighted contributions of a text
unit (the text is taken as its token sequence; tokenization preserving
emoji and idiom boundaries is upstream of this function). -/
def rawScore (dl gl : Lexicon) (tokens : List String) : ℚ :=
  (contribs dl gl .plain tokens).sum

/-- Modelled from the spec: the saturation function bounding the summed
contributions to [-1,1]. -/
def saturate (x : ℚ) : ℚ := x / (1 + |x|)

/-- Modelled from the spec: score(text) - deterministic, pure function of
the text's tokens and the immutable lexicons, polarity in [-1,1]. -/
def score (dl gl : Lexicon) (tokens : List String) : ℚ :=
  saturate (rawScore dl gl tokens)

/-- Whether a character is an uppercase Latin letter. -/
def isUpperChar (c : Char) : Bool := decide ('A' ≤ c) && decide (c ≤ 'Z')

/-- Whether a character sequence is 1-5 uppercase letters. -/
def isTickerCore (cs : List Char) : Bool :=
  decide (1 ≤ cs.length) && decide (cs.length ≤ 5) && cs.all isUpperChar

/-- Modelled from the spec: the cashtag pass matches a sigil followed by
1-5 uppercase letters. -/
def isCashtag (tok : String) : Bool :=
  match tok.data with
  | '$' :: rest => isTickerCore rest
  | _ => false

/-- The symbol referenced by a cashtag token (the token without its
sigil). -/
def cashtagSymbol (tok : String) : String := ⟨tok.data.drop 1⟩

/-- Modelled from the spec: the bareword pass matches bare sequences of
1-5 uppercase letters. -/
def isBareword (tok : String) : Bool := isTickerCore tok.data

/-- How a ticker mention was matched (spec TickerMention.pattern_kind). -/
inductive PatternKind where
  | cashtag
  | bareword
deriving DecidableEq, Repr

/-- Modelled from the spec: TickerMention {ticker, confidence,
pattern_kind} (the text-unit id and matched span are bookkeeping fields
no claim depends on). -/
structure TickerMention where
  ticker : String
  confidence : ℚ
  pattern_kind : PatternKind
deriving DecidableEq, Repr

/-- Modelled from the spec: the Ticker Extractor's configuration
(acceptance threshold, blacklist and whitelist term sets, cashtag base
confidence, bareword base confidence and its heuristic adjustments). -/
structure ExtractorConfig where
  blacklist : List String
  whitelist : List String
  financeWords : List String
  commonWords : List String
  threshold : ℚ
  cashtagConfidence : ℚ
  barewordBase : ℚ
  nonWhitelistPenalty : ℚ
  contextBoost : ℚ
  commonWordPenalty : ℚ
deriving DecidableEq, Repr

/-- Modelled from the spec: a bareword match's confidence - base
confidence, penalized unless whitelisted, adjusted upward when the
surrounding tokens contain finance-context words and downward when the
match is a common English word. -/
def barewordConfidence (cfg : ExtractorConfig) (tokens : List String) (tok : String) : ℚ :=
  cfg.barewordBase
    - (if tok ∈ cfg.whitelist then 0 else cfg.nonWhitelistPenalty)
    + (if tokens.any (fun u => decide (u ∈ cfg.financeWords)) then cfg.contextBoost else 0)
    - (if tok ∈ cfg.commonWords then cfg.commonWordPenalty else 0)

/-- Modelled from the spec: the candidate mention produced by one token -
cashtag matches receive the high base confidence and bypass the
blacklist; bareword matches are rejected when blacklisted and otherwise
scored heuristically; a mention is emitted only if its final confidence
exceeds the acceptance threshold. -/
def mentionOf (cfg : ExtractorConfig) (tokens : List String) (tok : String) :
    Option TickerMention :=
  if isCashtag tok then
    if cfg.threshold < cfg.cashtagConfidence then
      some ⟨cashtagSymbol tok, cfg.cashtagConfidence, .cashtag⟩
    else none
  else if isBareword tok ∧ tok ∉ cfg.blacklist then
    if cfg.threshold < barewordConfidence cfg tokens tok then
      some ⟨tok, barewordConfidence cfg tokens tok, .bareword⟩
    else none
  else none

/-- Modelled from the spec: extract(text) - the ordered sequence of
mentions whose final confidence exceeds the acceptance threshold;
sub-threshold candidates are silently dropped. -/
def extract (cfg : ExtractorConfig) (tokens : List String) : List TickerMention :=
  tokens.filterMap (mentionOf cfg tokens)

/-- Sample extractor configuration for witnesses. -/
def sampleXCfg : ExtractorConfig :=
  { blacklist := ["YOLO", "CEO", "LMAO"]
    whitelist := ["GME", "AAPL", "TSLA"]
    financeWords := ["calls", "puts", "shares", "stock"]
    commonWords := ["IT", "ALL", "CAN"]
    threshold := 1/2
    cashtagConfidence := 9/10
    barewordBase := 6/10
    nonWhitelistPenalty := 2/10
    contextBoost := 15/100
    commonWordPenalty := 25/100 }

/-- Modelled from the spec: the Market Data Cache's configuration - TTL
and staleness grace multiple. -/
structure CacheConfig where
  ttl : ℚ
  graceMult : ℚ
deriving DecidableEq, Repr

/-- Modelled from the spec: the Market Data Cache's shared state under
interleaved callers, keyed by the (ticker, data_kind) cache key (rendered
as one string key).  `pending` is the atomic claim-the-fetch marker,
`inflight` counts outstanding provider calls per key, `fetchedAt` is the
stored entry's fetch time, and `servedAges` logs the age (now minus
fetched_at) of every value served so far. -/
structure CacheState where
  pending : String → Bool
  inflight : String → ℕ
  fetchedAt : String → Option ℚ
  servedAges : List ℚ

/-- The cache's initial state: nothing pending, no fetch in flight, no
entries, nothing served. -/
def initCache : CacheState :=
  { pending := fun _ => false, inflight := fun _ => 0
    fetchedAt := fun _ => none, servedAges := [] }

/-- Modelled from the spec: one interleaved step of the Market Data Cache.
A caller may claim the fetch for a key only when no fetch is pending for
that key (the atomic compare-and-set); a completed fetch stores the entry
and updates fetched_at; a cancelled fetch releases the claim without
touching the entry (a partially-updated entry is never considered valid);
a value is served either fresh (age within TTL) or stale-within-grace
(age within the grace multiple of the TTL). -/
inductive CacheStep (cfg : CacheConfig) : CacheState → CacheState → Prop
  | beginFetch (s : CacheState) (k : String) (h : s.pending k = false) :
      CacheStep cfg s
        { s with pending := Function.update s.pending k true
                 inflight := Function.update s.inflight k (s.inflight k + 1) }
  | completeFetch (s : CacheState) (k : String) (t : ℚ) (h : s.pending k = true) :
      CacheStep cfg s
        { s with pending := Function.update s.pending k false
                 inflight := Function.update s.inflight k (s.inflight k - 1)
                 fetchedAt := Function.update s.fetchedAt k (some t) }
  | cancelFetch (s : CacheState) (k : String) (h : s.pending k = true) :
      CacheStep cfg s
        { s with pending := Function.update s.pending k false
                 inflight := Function.update s.inflight k (s.inflight k - 1) }
  | serveFresh (s : CacheState) (k : String) (now f : ℚ)
      (hf : s.fetchedAt k = some f) (hage : now - f ≤ cfg.ttl) :
      CacheStep cfg s { s with servedAges := (now - f) :: s.servedAges }
  | serveStale (s : CacheState) (k : String) (now f : ℚ)
      (hf : s.fetchedAt k = some f) (hage : now - f ≤ cfg.graceMult * cfg.ttl) :
      CacheStep cfg s { s with servedAges := (now - f) :: s.servedAges }

/-- The cache states reachable from the initial state by interleaved
steps. -/
inductive CacheReachable (cfg : CacheConfig) : CacheState → Prop
  | init : CacheReachable cfg initCache
  | step {s s' : CacheState} :
      CacheReachable cfg s → CacheStep cfg s s' → CacheReachable cfg s'

/-- The cache invariant: the in-flight fetch count of a key equals its
pending marker (hence is never two), and every served value's age is
within TTL plus the grace multiple of the TTL. -/
def CacheInv (cfg : CacheConfig) (s : CacheState) : Prop :=
  (∀ k, s.inflight k = if s.pending k then 1 else 0) ∧
  (∀ a ∈ s.servedAges, a ≤ cfg.ttl + cfg.graceMult * cfg.ttl)

/-- The Portfolio record of the dashboard (src useAgentData). -/
structure Portfolio where
  balance : ℚ
  open_positions : List String
deriving DecidableEq, Repr

/-- The Health record of the dashboard (src useAgentData). -/
structure Health where
  status : String
  version : String
  database_connected : Bool
  broker_type : String
deriving DecidableEq, Repr

/-- The ValuationEntry record of the dashboard (src useAgentData). -/
structure ValuationEntry where
  total_equity : ℚ
  cash : ℚ
  timestamp : String
deriving DecidableEq, Repr

/-- The parsed body of /portfolio/history; the hook reads its `history`
field (src useAgentData: `setHistory(historyData.history)`). -/
structure HistoryPayload where
  history : List ValuationEntry
deriving DecidableEq, Repr

/-- One API response: its ok flag and its parsed payload. -/
structure Resp (α : Type) where
  ok : Bool
  payload : α
deriving DecidableEq, Repr

/-- The state held by the useAgentData hook (src useAgentData: signals,
portfolio, history, health, loading, error). -/
structure DashState where
  signals : List Signal
  portfolio : Option Portfolio
  history : List ValuationEntry
  health : Option Health
  loading : Bool
  error : Option String
deriving DecidableEq, Repr

/-- The fetchData function of the useAgentData hook (src useAgentData
lines 42-72): the four endpoints are fetched; if any response is not ok an
error is thrown before any state setter runs, so the catch block sets only
the error message; otherwise all four values are stored and the error is
reset to null; loading is cleared in both cases (the finally block). -/
def fetchData (st : DashState) (signalsRes : Resp (List Signal))
    (portfolioRes : Resp Portfolio) (historyRes : Resp HistoryPayload)
    (healthRes : Resp Health) : DashState :=
  if signalsRes.ok && portfolioRes.ok && historyRes.ok && healthRes.ok then
    { signals := signalsRes.payload
      portfolio := some portfolioRes.payload
      history := historyRes.payload.history
      health := some healthRes.payload
      loading := false
      error := none }
  else
    { st with loading := false, error := some "Failed to fetch data from API" }

/-- The overwrite step of WatchlistSidebar's `latestByTicker` object
build (src WatchlistSidebar line 18-20): assigning to an existing key
replaces its value in place (JavaScript objects keep first-insertion key
order); assigning a fresh key appends it. -/
def upsertSignal (m : List (String × Signal)) (s : Signal) : List (String × Signal) :=
  if m.any (fun p => decide (p.1 = s.ticker)) then
    m.map (fun p => if p.1 = s.ticker then (p.1, s) else p)
  else m ++ [(s.ticker, s)]

/-- WatchlistSidebar's `latestByTicker` object (src WatchlistSidebar lines
17-20): the signals array is copied, reversed, and each signal is assigned
to its ticker's key, so the last assignment - the first signal in original
array order - wins. -/
def latestByTicker (signals : List Signal) : List (String × Signal) :=
  signals.reverse.foldl upsertSignal []

/-- Stable insertion of a signal into a list sorted by descending score
(the JS comparator `(a, b) => b.score - a.score` under the stable
Array.prototype.sort). -/
def insertByScore (s : Signal) : List Signal → List Signal
  | [] => [s]
  | q :: rest => if q.score < s.score then s :: q :: rest else q :: insertByScore s rest

/-- Stable sort of signals by descending score. -/
def sortByScore : List Signal → List Signal
  | [] => []
  | s :: rest => insertByScore s (sortByScore rest)

/-- WatchlistSidebar's `sortedTickers` (src WatchlistSidebar line 22): the
values of `latestByTicker`, sorted by score in descending order. -/
def watchlistRows (signals : List Signal) : List Signal :=
  sortByScore ((latestByTicker signals).map Prod.snd)

/-- Association lookup on the `latestByTicker` object: the value at the
first pair carrying the key. -/
def alookup (k : String) (m : List (String × Signal)) : Option Signal :=
  (m.find? (fun p => decide (p.1 = k))).map Prod.snd

/-- Sample signals for witnesses: two signals for the same ticker and one
for another. -/
def sigA : Signal :=
  { ticker := "GME", score := 3/4, action := .BUY, confidence := 9/10
    reasoning := "r1", components := [], timestamp := "t1" }

/-- Second sample signal, same ticker as sigA, lower score. -/
def sigB : Signal :=
  { ticker := "GME", score := 1/4, action := .HOLD, confidence := 1/2
    reasoning := "r2", components := [], timestamp := "t2" }

/-- Third sample signal, distinct ticker. -/
def sigC : Signal :=
  { ticker := "TSLA", score := -1/2, action := .SELL, confidence := 3/5
    reasoning := "r3", components := [], timestamp := "t3" }

/-- Sample domain (slang) lexicon for witnesses. -/
def sampleDomainLex : Lexicon := ⟨[("moon", 1), ("guh", -1), ("tendies", 1/2)]⟩

/-- Sample general-purpose lexicon for witnesses. -/
def sampleGeneralLex : Lexicon := ⟨[("good", 1/2), ("bad", -1/2)]⟩

/-- Sample cache configuration for witnesses: a one-hour TTL with grace
multiple one. -/
def sampleCacheCfg : CacheConfig := { ttl := 1, graceMult := 1 }

/-- The cache state after one caller claims the fetch for key GME. -/
def oneFetchState : CacheState :=
  { initCache with
      pending := Function.update initCache.pending "GME" true
      inflight := Function.update initCache.inflight "GME" (initCache.inflight "GME" + 1) }

/-- Sample previously stored dashboard state for witnesses. -/
def staleState : DashState :=
  { signals := [sigB], portfolio := some ⟨100, ["GME"]⟩
    history := [⟨100, 50, "h1"⟩], health := some ⟨"active", "2.1.0", true, "paper"⟩
    loading := true, error := none }

/-- Sample successful /signals response. -/
def okSignalsResp : Resp (List Signal) := ⟨true, [sigA]⟩

/-- Sample failed /signals response. -/
def badSignalsResp : Resp (List Signal) := ⟨false, []⟩

/-- Sample successful /portfolio response. -/
def okPortfolioResp : Resp Portfolio := ⟨true, ⟨120, ["GME", "TSLA"]⟩⟩

/-- Sample successful /portfolio/history response. -/
def okHistoryResp : Resp HistoryPayload := ⟨true, ⟨[⟨120, 60, "h2"⟩]⟩⟩

/-- Sample successful /health response. -/
def okHealthResp : Resp Health := ⟨true, ⟨"active", "2.1.0", true, "paper"⟩⟩

/-- The `latestByTicker` object invariant: every stored signal carries the
ticker it is keyed under. -/
def KeysOK (m : List (String × Signal)) : Prop := ∀ p ∈ m, p.2.ticker = p.1

end WSB

theorem WSB.clamp_le_hi (lo hi x : ℚ) (h : lo ≤ hi) : WSB.clamp lo hi x ≤ hi := by
  unfold WSB.clamp
  split
  · exact h
  · split
    · exact le_refl _
    · exact le_of_not_le (by assumption)

theorem WSB.lo_le_clamp (lo hi x : ℚ) (h : lo ≤ hi) : lo ≤ WSB.clamp lo hi x := by
  unfold WSB.clamp
  split
  · exact le_refl _
  · split
    · exact h
    · exact le_of_not_le (by assumption)

theorem WSB.clamp_mem (lo hi x : ℚ) (h : lo ≤ hi) :
    lo ≤ WSB.clamp lo hi x ∧ WSB.clamp lo hi x ≤ hi :=
  ⟨WSB.lo_le_clamp lo hi x h, WSB.clamp_le_hi lo hi x h⟩

/-- Claim C1: the Signal Engine's composite score is the weighted sum of the
normalized sentiment, velocity, volume and momentum components clamped to
[-1,1] after summation, for every components mapping and weight vector; it
always lies in [-1,1]; and on the spec's worked example (components 0.8,
0.6, 0.3, 0.0 with weights 0.4, 0.3, 0.2, 0.1) the composite is exactly
0.56 and with BUY threshold 0.5 the selected action is BUY (whatever the
sell threshold, since the BUY branch fires first). -/
theorem C1_composite_clamped_weighted_sum :
    (∀ w c, WSB.compositeScore w c = WSB.clamp (-1) 1 (WSB.weightedSum w c)) ∧
    (∀ w c, -1 ≤ WSB.compositeScore w c ∧ WSB.compositeScore w c ≤ 1) ∧
    WSB.compositeScore WSB.exampleWeights WSB.exampleComponents = 56/100 ∧
    (∀ sellTh : ℚ, WSB.selectAction (5/10) sellTh
      (WSB.compositeScore WSB.exampleWeights WSB.exampleComponents) = .BUY) := by
  refine ⟨fun w c => rfl,
    fun w c => ⟨WSB.lo_le_clamp _ _ _ (by norm_num), WSB.clamp_le_hi _ _ _ (by norm_num)⟩, ?_, ?_⟩
  · norm_num [WSB.compositeScore, WSB.clamp, WSB.weightedSum, WSB.exampleWeights,
      WSB.exampleComponents]
  · intro sellTh
    have h : WSB.compositeScore WSB.exampleWeights WSB.exampleComponents = 56/100 := by
      norm_num [WSB.compositeScore, WSB.clamp, WSB.weightedSum, WSB.exampleWeights,
        WSB.exampleComponents]
    rw [h]
    unfold WSB.selectAction
    norm_num

/-- Claim C3: for every configuration, attention state whose mention count
is below the configured minimum, and arbitrary (however extreme) market
features, compute yields the insufficient-evidence outcome none - no
Signal is emitted; the outcome is an ordinary value of the result type,
not an error. -/
theorem C3_below_min_mentions_no_signal (cfg : WSB.EngineConfig)
    (att : WSB.AttentionWindowState) (mkt : WSB.MarketFeatureSnapshot) (now : String)
    (h : att.mention_count < cfg.minMentions) :
    WSB.compute cfg att mkt now = none := by
  unfold WSB.compute
  exact if_pos h

/-- Witness for C3: a ticker with two mentions against a minimum of three
yields no Signal even with extreme market features. -/
theorem C3_below_min_mentions_no_signal_witness :
    WSB.thinAtt.mention_count < WSB.sampleCfg.minMentions ∧
    WSB.compute WSB.sampleCfg WSB.thinAtt WSB.sampleMkt "t" = none :=
  ⟨by decide, C3_below_min_mentions_no_signal WSB.sampleCfg WSB.thinAtt WSB.sampleMkt "t"
    (by decide)⟩

/-- Claim C4: every Signal emitted by compute has components keyed only by
the fixed enumerated feature set {sentiment, velocity, volume, momentum},
and every numeric sub-score entering the blend is clamped to [-1,1]. -/
theorem C4_components_keys_and_clamped (cfg : WSB.EngineConfig)
    (att : WSB.AttentionWindowState) (mkt : WSB.MarketFeatureSnapshot) (now : String)
    (s : WSB.Signal) (h : WSB.compute cfg att mkt now = some s) :
    ∀ p ∈ s.components, p.1 ∈ WSB.featureNames ∧ -1 ≤ p.2 ∧ p.2 ≤ 1 := by
  unfold WSB.compute at h
  split at h
  · exact absurd h (by simp)
  · have hc : s.components =
        WSB.componentsList (WSB.engineComponents cfg att mkt) := by
      cases h
      rfl
    intro p hp
    rw [hc] at hp
    simp only [WSB.componentsList, WSB.engineComponents, WSB.normalizeBy,
      List.mem_cons, List.not_mem_nil, or_false] at hp
    rcases hp with hp | hp | hp | hp <;> subst hp <;>
      exact ⟨by simp [WSB.featureNames], WSB.clamp_mem _ _ _ (by norm_num)⟩

attribute [local semireducible] Rat.mul Rat.add Rat.sub Rat.inv in
/-- Witness for C4: on the sample inputs compute emits a Signal whose
component keys all lie in the fixed feature set with values in [-1,1]. -/
theorem C4_components_keys_and_clamped_witness :
    WSB.compute WSB.sampleCfg WSB.sampleAtt WSB.sampleMkt "t" = some WSB.sampleSignal ∧
    ∀ p ∈ WSB.sampleSignal.components, p.1 ∈ WSB.featureNames ∧ -1 ≤ p.2 ∧ p.2 ≤ 1 :=
  ⟨by decide, C4_components_keys_and_clamped WSB.sampleCfg WSB.sampleAtt WSB.sampleMkt "t"
    WSB.sampleSignal (by decide)⟩

/-- Claim C8: for a fixed window, the attention velocity (retained mention
count divided by the window duration in hours) is monotonically
non-decreasing as mentions are recorded, is non-increasing as the as-of
instant advances under lazy eviction (mentions age out of the window), and
is exactly zero once every recorded mention has aged out. -/
theorem C8_velocity_monotone_and_ages_out :
    (∀ w asOf ts t, 0 < w →
      WSB.mentionVelocity w asOf ts ≤ WSB.mentionVelocity w asOf (WSB.recordMention ts t)) ∧
    (∀ w asOf asOfLater ts, 0 < w → asOf ≤ asOfLater →
      WSB.mentionVelocity w asOfLater ts ≤ WSB.mentionVelocity w asOf ts) ∧
    (∀ w asOf ts, (∀ u ∈ ts, u < asOf - w) → WSB.mentionVelocity w asOf ts = 0) := by
  refine ⟨?_, ?_, ?_⟩
  · intro w asOf ts t hw
    unfold WSB.mentionVelocity WSB.retainedTimestamps WSB.recordMention
    apply div_le_div_of_nonneg_right _ (le_of_lt hw)
    rw [Nat.cast_le, List.filter_append, List.length_append]
    exact Nat.le_add_right _ _
  · intro w asOf asOfLater ts hw hle
    unfold WSB.mentionVelocity WSB.retainedTimestamps
    apply div_le_div_of_nonneg_right _ (le_of_lt hw)
    rw [Nat.cast_le, ← List.countP_eq_length_filter, ← List.countP_eq_length_filter]
    apply List.countP_mono_left
    intro u _ hu
    rw [decide_eq_true_eq] at hu ⊢
    calc asOf - w ≤ asOfLater - w := by linarith
      _ ≤ u := hu
  · intro w asOf ts h
    unfold WSB.mentionVelocity WSB.retainedTimestamps
    have hnil : ts.filter (fun t => decide (asOf - w ≤ t)) = [] := by
      rw [List.filter_eq_nil_iff]
      intro u hu
      rw [decide_eq_true_eq]
      exact not_le.mpr (h u hu)
    rw [hnil]
    simp

attribute [local semireducible] Rat.mul Rat.add Rat.sub Rat.inv in
/-- Witness for C8: with a one-hour window, recording a mention does not
decrease the velocity at as-of 3, advancing the as-of from 3 to 4 does not
increase it, and at as-of 10 every mention of [0, 1] has aged out so the
velocity is zero. -/
theorem C8_velocity_monotone_and_ages_out_witness :
    WSB.mentionVelocity 1 3 [0, 1] ≤ WSB.mentionVelocity 1 3 (WSB.recordMention [0, 1] 3) ∧
    WSB.mentionVelocity 1 4 [0, 1] ≤ WSB.mentionVelocity 1 3 [0, 1] ∧
    WSB.mentionVelocity 1 10 [0, 1] = 0 :=
  ⟨C8_velocity_monotone_and_ages_out.1 1 3 [0, 1] 3 (by decide),
   C8_velocity_monotone_and_ages_out.2.1 1 3 4 [0, 1] (by decide) (by decide),
   C8_velocity_monotone_and_ages_out.2.2 1 10 [0, 1] (by decide)⟩

theorem WSB.saturate_mem (x : ℚ) : -1 ≤ WSB.saturate x ∧ WSB.saturate x ≤ 1 := by
  have hpos : (0:ℚ) < 1 + |x| := by positivity
  constructor
  · rw [WSB.saturate, le_div_iff₀ hpos]
    have := neg_abs_le x
    linarith
  · rw [WSB.saturate, div_le_one hpos]
    have := le_abs_self x
    linarith

theorem WSB.contribs_sum_zero (dl gl : WSB.Lexicon) (toks : List String)
    (h : ∀ t ∈ toks, WSB.valence dl gl t = none) :
    ∀ m, (WSB.contribs dl gl m toks).sum = 0 := by
  induction toks with
  | nil => intro m; simp [WSB.contribs]
  | cons t rest ih =>
    intro m
    have h1 : WSB.valence dl gl t = none := h t (List.mem_cons_self t rest)
    have hrest := fun u hu => h u (List.mem_cons_of_mem t hu)
    by_cases hn : t ∈ WSB.negationWords
    · simp [WSB.contribs, WSB.tokenContrib, hn, ih hrest]
    · by_cases hi : t ∈ WSB.intensifierWords
      · simp [WSB.contribs, WSB.tokenContrib, hn, hi, ih hrest]
      · simp [WSB.contribs, WSB.tokenContrib, hn, hi, h1, ih hrest]

/-- Claim C5: for every token sequence (arbitrarily long or slang-saturated),
the Sentiment Scorer's score lies in [-1,1]; re-scoring identical text
returns the identical polarity (score is a pure function of the tokens and
the immutable lexicons); and a text with no recognized sentiment-bearing
tokens scores exactly 0. -/
theorem C5_score_bounded_deterministic_neutral :
    (∀ dl gl toks, -1 ≤ WSB.score dl gl toks ∧ WSB.score dl gl toks ≤ 1) ∧
    (∀ dl gl toks toks2, toks = toks2 → WSB.score dl gl toks = WSB.score dl gl toks2) ∧
    (∀ dl gl toks, (∀ t ∈ toks, WSB.valence dl gl t = none) →
      WSB.score dl gl toks = 0) := by
  refine ⟨fun dl gl toks => WSB.saturate_mem _, fun dl gl toks toks2 h => by rw [h], ?_⟩
  intro dl gl toks h
  have hz : WSB.rawScore dl gl toks = 0 := WSB.contribs_sum_zero dl gl toks h .plain
  rw [WSB.score, hz]
  simp [WSB.saturate]

/-- Witness for C5: a text of two unrecognized tokens is bounded and scores
exactly zero. -/
theorem C5_score_bounded_deterministic_neutral_witness :
    (-1 ≤ WSB.score WSB.sampleDomainLex WSB.sampleGeneralLex ["hello", "world"] ∧
      WSB.score WSB.sampleDomainLex WSB.sampleGeneralLex ["hello", "world"] ≤ 1) ∧
    WSB.score WSB.sampleDomainLex WSB.sampleGeneralLex ["hello", "world"] =
      WSB.score WSB.sampleDomainLex WSB.sampleGeneralLex ["hello", "world"] ∧
    WSB.score WSB.sampleDomainLex WSB.sampleGeneralLex ["hello", "world"] = 0 :=
  ⟨C5_score_bounded_deterministic_neutral.1 _ _ _,
   C5_score_bounded_deterministic_neutral.2.1 WSB.sampleDomainLex WSB.sampleGeneralLex
     ["hello", "world"] ["hello", "world"] rfl,
   C5_score_bounded_deterministic_neutral.2.2 WSB.sampleDomainLex WSB.sampleGeneralLex
     ["hello", "world"] (by decide)⟩

theorem WSB.contribs_append (dl gl : WSB.Lexicon) (ys : List String) :
    ∀ (xs : List String) (m : WSB.Mode),
      WSB.contribs dl gl m (xs ++ ys) =
        WSB.contribs dl gl m xs ++ WSB.contribs dl gl (WSB.modeAfter dl gl m xs) ys := by
  intro xs
  induction xs with
  | nil => intro m; simp [WSB.contribs, WSB.modeAfter]
  | cons x rest ih =>
    intro m
    simp only [List.cons_append, WSB.contribs, WSB.modeAfter, List.append_eq]
    rw [ih]

/-- Claim C7: placing a negation immediately before a sentiment-bearing
token flips the sign of that token's contribution relative to the same
text without the negation, holding the rest of the text constant: with the
negation the token contributes -(damp·w) in place of w, the surrounding
contributions are unchanged, and for nonzero w the two contributions have
opposite signs (their product is negative). -/
theorem C7_negation_flips_contribution (dl gl : WSB.Lexicon)
    (pre post : List String) (neg t : String) (w : ℚ)
    (hneg : neg ∈ WSB.negationWords)
    (hval : WSB.valence dl gl t = some w)
    (htn : t ∉ WSB.negationWords) (hti : t ∉ WSB.intensifierWords)
    (hpre : WSB.modeAfter dl gl .plain pre = .plain) :
    WSB.contribs dl gl .plain (pre ++ neg :: t :: post) =
      WSB.contribs dl gl .plain pre ++
        0 :: -(WSB.negationDamp * w) :: WSB.contribs dl gl .plain post ∧
    WSB.contribs dl gl .plain (pre ++ t :: post) =
      WSB.contribs dl gl .plain pre ++ w :: WSB.contribs dl gl .plain post ∧
    (w ≠ 0 → -(WSB.negationDamp * w) * w < 0) := by
  refine ⟨?_, ?_, ?_⟩
  · rw [WSB.contribs_append dl gl _ pre .plain, hpre]
    congr 1
    simp [WSB.contribs, WSB.tokenContrib, hneg, htn, hti, hval]
  · rw [WSB.contribs_append dl gl _ pre .plain, hpre]
    congr 1
    simp [WSB.contribs, WSB.tokenContrib, htn, hti, hval]
  · intro hw
    rw [WSB.negationDamp]
    nlinarith [mul_self_pos.mpr hw]

attribute [local semireducible] Rat.mul Rat.add Rat.sub Rat.inv in
/-- Witness for C7: "not" before "moon" (valence 1) contributes -1/2 in
place of 1 within "tendies not moon soon", the other contributions held
constant, and the two contributions have opposite signs. -/
theorem C7_negation_flips_contribution_witness :
    WSB.contribs WSB.sampleDomainLex WSB.sampleGeneralLex .plain
        (["tendies"] ++ "not" :: "moon" :: ["soon"]) =
      WSB.contribs WSB.sampleDomainLex WSB.sampleGeneralLex .plain ["tendies"] ++
        0 :: -(WSB.negationDamp * 1) ::
          WSB.contribs WSB.sampleDomainLex WSB.sampleGeneralLex .plain ["soon"] ∧
    WSB.contribs WSB.sampleDomainLex WSB.sampleGeneralLex .plain
        (["tendies"] ++ "moon" :: ["soon"]) =
      WSB.contribs WSB.sampleDomainLex WSB.sampleGeneralLex .plain ["tendies"] ++
        1 :: WSB.contribs WSB.sampleDomainLex WSB.sampleGeneralLex .plain ["soon"] ∧
    ((1:ℚ) ≠ 0 → -(WSB.negationDamp * 1) * 1 < 0) :=
  C7_negation_flips_contribution WSB.sampleDomainLex WSB.sampleGeneralLex
    ["tendies"] ["soon"] "not" "moon" 1 (by decide) (by decide) (by decide) (by decide)
    (by decide)

/-- Claim C6: every text containing a cashtag-style token (sigil followed
by 1-5 uppercase letters) whose symbol is not blacklisted yields a
TickerMention for that symbol with confidence above the configured
acceptance threshold, provided the configuration's cashtag base confidence
exceeds the threshold (the spec fixes it high for that purpose). -/
theorem C6_cashtag_extracted (cfg : WSB.ExtractorConfig) (tokens : List String)
    (tok : String) (hmem : tok ∈ tokens) (hct : WSB.isCashtag tok = true)
    (_hbl : WSB.cashtagSymbol tok ∉ cfg.blacklist)
    (hcfg : cfg.threshold < cfg.cashtagConfidence) :
    ∃ m ∈ WSB.extract cfg tokens,
      m.ticker = WSB.cashtagSymbol tok ∧ cfg.threshold < m.confidence := by
  refine ⟨⟨WSB.cashtagSymbol tok, cfg.cashtagConfidence, .cashtag⟩, ?_, rfl, hcfg⟩
  rw [WSB.extract, List.mem_filterMap]
  refine ⟨tok, hmem, ?_⟩
  rw [WSB.mentionOf, if_pos hct, if_pos hcfg]

attribute [local semireducible] Rat.mul Rat.add Rat.sub Rat.inv in
/-- Witness for C6: "$GME" within a post text yields a GME mention above
the threshold under the sample configuration. -/
theorem C6_cashtag_extracted_witness :
    ∃ m ∈ WSB.extract WSB.sampleXCfg ["$GME", "to", "the", "moon"],
      m.ticker = WSB.cashtagSymbol "$GME" ∧ WSB.sampleXCfg.threshold < m.confidence :=
  C6_cashtag_extracted WSB.sampleXCfg ["$GME", "to", "the", "moon"] "$GME"
    (by decide) (by decide) (by decide) (by decide)

theorem WSB.cacheStep_inv (cfg : WSB.CacheConfig) (httl : 0 ≤ cfg.ttl)
    (hg : 0 ≤ cfg.graceMult) {s s' : WSB.CacheState}
    (hstep : WSB.CacheStep cfg s s') (hinv : WSB.CacheInv cfg s) :
    WSB.CacheInv cfg s' := by
  obtain ⟨h1, h2⟩ := hinv
  have hgr : 0 ≤ cfg.graceMult * cfg.ttl := mul_nonneg hg httl
  cases hstep with
  | beginFetch k h =>
    refine ⟨?_, h2⟩
    intro k2
    by_cases hk : k2 = k
    · subst hk
      simp only [Function.update_same]
      rw [h1 k2, h]
      simp
    · simp only [Function.update_noteq hk]
      exact h1 k2
  | completeFetch k t h =>
    refine ⟨?_, h2⟩
    intro k2
    by_cases hk : k2 = k
    · subst hk
      simp only [Function.update_same]
      rw [h1 k2, h]
      simp
    · simp only [Function.update_noteq hk]
      exact h1 k2
  | cancelFetch k h =>
    refine ⟨?_, h2⟩
    intro k2
    by_cases hk : k2 = k
    · subst hk
      simp only [Function.update_same]
      rw [h1 k2, h]
      simp
    · simp only [Function.update_noteq hk]
      exact h1 k2
  | serveFresh k now f hf hage =>
    refine ⟨h1, ?_⟩
    intro a ha
    rcases List.mem_cons.mp ha with ha | ha
    · subst ha
      linarith
    · exact h2 a ha
  | serveStale k now f hf hage =>
    refine ⟨h1, ?_⟩
    intro a ha
    rcases List.mem_cons.mp ha with ha | ha
    · subst ha
      linarith
    · exact h2 a ha

theorem WSB.cacheReachable_inv (cfg : WSB.CacheConfig) (httl : 0 ≤ cfg.ttl)
    (hg : 0 ≤ cfg.graceMult) {s : WSB.CacheState}
    (h : WSB.CacheReachable cfg s) : WSB.CacheInv cfg s := by
  induction h with
  | init =>
    constructor
    · intro k
      simp [WSB.initCache]
    · intro a ha
      simp [WSB.initCache] at ha
  | step _ hstep ih => exact WSB.cacheStep_inv cfg httl hg hstep ih

/-- Claim C2: in every state the Market Data Cache can reach under
interleaved callers, no key ever has two provider fetches in flight at
once (concurrent callers for a key share the one in-flight fetch claimed
by the atomic marker), and the age of every served value never exceeds the
TTL plus the grace multiple of the TTL. -/
theorem C2_single_flight_and_bounded_age (cfg : WSB.CacheConfig) (s : WSB.CacheState)
    (httl : 0 ≤ cfg.ttl) (hg : 0 ≤ cfg.graceMult) (h : WSB.CacheReachable cfg s) :
    (∀ k, s.inflight k ≤ 1) ∧
    (∀ a ∈ s.servedAges, a ≤ cfg.ttl + cfg.graceMult * cfg.ttl) := by
  obtain ⟨h1, h2⟩ := WSB.cacheReachable_inv cfg httl hg h
  refine ⟨fun k => ?_, h2⟩
  rw [h1 k]
  split <;> norm_num

/-- Witness for C2: the state in which one caller has claimed the fetch
for GME is reachable, has at most one fetch in flight per key, and has
served nothing out of age bounds. -/
theorem C2_single_flight_and_bounded_age_witness :
    (∀ k, WSB.oneFetchState.inflight k ≤ 1) ∧
    (∀ a ∈ WSB.oneFetchState.servedAges,
      a ≤ WSB.sampleCacheCfg.ttl +
        WSB.sampleCacheCfg.graceMult * WSB.sampleCacheCfg.ttl) :=
  C2_single_flight_and_bounded_age WSB.sampleCacheCfg WSB.oneFetchState
    (by decide) (by decide)
    (WSB.CacheReachable.step WSB.CacheReachable.init
      (WSB.CacheStep.beginFetch WSB.initCache "GME" rfl))

/-- Claim C9: one fetchData call updates the dashboard state
all-or-nothing: if any of the four API responses is not ok, the previously
stored signals, portfolio, history and health values are left unchanged
and only the error message is set; when all four succeed, all four values
are replaced and the error is reset to none. -/
theorem C9_fetchData_all_or_nothing (st : WSB.DashState)
    (sr : WSB.Resp (List WSB.Signal)) (pr : WSB.Resp WSB.Portfolio)
    (hr : WSB.Resp WSB.HistoryPayload) (her : WSB.Resp WSB.Health) :
    (¬(sr.ok = true ∧ pr.ok = true ∧ hr.ok = true ∧ her.ok = true) →
      (WSB.fetchData st sr pr hr her).signals = st.signals ∧
      (WSB.fetchData st sr pr hr her).portfolio = st.portfolio ∧
      (WSB.fetchData st sr pr hr her).history = st.history ∧
      (WSB.fetchData st sr pr hr her).health = st.health ∧
      (WSB.fetchData st sr pr hr her).error = some "Failed to fetch data from API") ∧
    ((sr.ok = true ∧ pr.ok = true ∧ hr.ok = true ∧ her.ok = true) →
      (WSB.fetchData st sr pr hr her).signals = sr.payload ∧
      (WSB.fetchData st sr pr hr her).portfolio = some pr.payload ∧
      (WSB.fetchData st sr pr hr her).history = hr.payload.history ∧
      (WSB.fetchData st sr pr hr her).health = some her.payload ∧
      (WSB.fetchData st sr pr hr her).error = none) := by
  constructor
  · intro h
    have hb : ¬((sr.ok && pr.ok && hr.ok && her.ok) = true) := by
      simp only [Bool.and_eq_true]
      intro hc
      exact h ⟨hc.1.1.1, hc.1.1.2, hc.1.2, hc.2⟩
    rw [WSB.fetchData, if_neg hb]
    exact ⟨rfl, rfl, rfl, rfl, rfl⟩
  · intro h
    have hb : (sr.ok && pr.ok && hr.ok && her.ok) = true := by
      simp only [Bool.and_eq_true]
      exact ⟨⟨⟨h.1, h.2.1⟩, h.2.2.1⟩, h.2.2.2⟩
    rw [WSB.fetchData, if_pos hb]
    exact ⟨rfl, rfl, rfl, rfl, rfl⟩

/-- Witness for C9: a failed /signals response leaves the stored values
untouched and sets the error; four ok responses replace all four values
and clear the error. -/
theorem C9_fetchData_all_or_nothing_witness :
    ((WSB.fetchData WSB.staleState WSB.badSignalsResp WSB.okPortfolioResp
        WSB.okHistoryResp WSB.okHealthResp).signals = WSB.staleState.signals ∧
      (WSB.fetchData WSB.staleState WSB.badSignalsResp WSB.okPortfolioResp
        WSB.okHistoryResp WSB.okHealthResp).portfolio = WSB.staleState.portfolio ∧
      (WSB.fetchData WSB.staleState WSB.badSignalsResp WSB.okPortfolioResp
        WSB.okHistoryResp WSB.okHealthResp).history = WSB.staleState.history ∧
      (WSB.fetchData WSB.staleState WSB.badSignalsResp WSB.okPortfolioResp
        WSB.okHistoryResp WSB.okHealthResp).health = WSB.staleState.health ∧
      (WSB.fetchData WSB.staleState WSB.badSignalsResp WSB.okPortfolioResp
        WSB.okHistoryResp WSB.okHealthResp).error =
          some "Failed to fetch data from API") ∧
    ((WSB.fetchData WSB.staleState WSB.okSignalsResp WSB.okPortfolioResp
        WSB.okHistoryResp WSB.okHealthResp).signals = WSB.okSignalsResp.payload ∧
      (WSB.fetchData WSB.staleState WSB.okSignalsResp WSB.okPortfolioResp
        WSB.okHistoryResp WSB.okHealthResp).portfolio = some WSB.okPortfolioResp.payload ∧
      (WSB.fetchData WSB.staleState WSB.okSignalsResp WSB.okPortfolioResp
        WSB.okHistoryResp WSB.okHealthResp).history = WSB.okHistoryResp.payload.history ∧
      (WSB.fetchData WSB.staleState WSB.okSignalsResp WSB.okPortfolioResp
        WSB.okHistoryResp WSB.okHealthResp).health = some WSB.okHealthResp.payload ∧
      (WSB.fetchData WSB.staleState WSB.okSignalsResp WSB.okPortfolioResp
        WSB.okHistoryResp WSB.okHealthResp).error = none) :=
  ⟨(C9_fetchData_all_or_nothing WSB.staleState WSB.badSignalsResp WSB.okPortfolioResp
      WSB.okHistoryResp WSB.okHealthResp).1 (by decide),
   (C9_fetchData_all_or_nothing WSB.staleState WSB.okSignalsResp WSB.okPortfolioResp
      WSB.okHistoryResp WSB.okHealthResp).2 (by decide)⟩
theorem WSB.alookup_map_replace (s : WSB.Signal) (k : String) :
    ∀ m : List (String × WSB.Signal),
      WSB.alookup k (m.map (fun p => if p.1 = s.ticker then (p.1, s) else p)) =
        if s.ticker = k then (WSB.alookup k m).map (fun _ => s) else WSB.alookup k m := by
  intro m
  induction m with
  | nil => simp [WSB.alookup]
  | cons p m ih =>
    simp only [List.map_cons]
    by_cases hst : p.1 = s.ticker
    · rw [if_pos hst]
      by_cases hk : p.1 = k
      · have hsk : s.ticker = k := by rw [← hst]; exact hk
        simp only [WSB.alookup]
        rw [List.find?_cons_of_pos _ (by simpa using hk),
            List.find?_cons_of_pos _ (by simpa using hk), if_pos hsk]
        simp
      · simp only [WSB.alookup] at ih ⊢
        rw [List.find?_cons_of_neg _ (by simpa using hk),
            List.find?_cons_of_neg _ (by simpa using hk)]
        exact ih
    · rw [if_neg hst]
      by_cases hk : p.1 = k
      · have hsk : ¬ s.ticker = k := by
          intro hc
          exact hst (by rw [hk, hc])
        simp only [WSB.alookup]
        rw [List.find?_cons_of_pos _ (by simpa using hk),
            List.find?_cons_of_pos _ (by simpa using hk), if_neg hsk]
      · simp only [WSB.alookup] at ih ⊢
        rw [List.find?_cons_of_neg _ (by simpa using hk),
            List.find?_cons_of_neg _ (by simpa using hk)]
        exact ih

theorem WSB.alookup_upsert (m : List (String × WSB.Signal)) (s : WSB.Signal) (k : String) :
    WSB.alookup k (WSB.upsertSignal m s) =
      if s.ticker = k then some s else WSB.alookup k m := by
  by_cases hany : m.any (fun p => decide (p.1 = s.ticker)) = true
  · rw [WSB.upsertSignal, if_pos hany, WSB.alookup_map_replace]
    by_cases hk : s.ticker = k
    · rw [if_pos hk, if_pos hk]
      subst hk
      obtain ⟨p, hp, hps⟩ := List.any_eq_true.mp hany
      have hsome : (m.find? (fun p => decide (p.1 = s.ticker))).isSome = true :=
        List.find?_isSome.mpr ⟨p, hp, hps⟩
      obtain ⟨q, hq⟩ := Option.isSome_iff_exists.mp hsome
      rw [WSB.alookup, hq]
      simp
    · rw [if_neg hk, if_neg hk]
  · rw [WSB.upsertSignal, if_neg hany]
    have hnone : ∀ p ∈ m, ¬ p.1 = s.ticker := by
      intro p hp hc
      exact hany (List.any_eq_true.mpr ⟨p, hp, by simpa using hc⟩)
    by_cases hk : s.ticker = k
    · subst hk
      have hfind : m.find? (fun p => decide (p.1 = s.ticker)) = none := by
        rw [List.find?_eq_none]
        intro p hp
        simpa using hnone p hp
      rw [if_pos rfl, WSB.alookup, List.find?_append, hfind, Option.none_or]
      simp [List.find?]
    · rw [if_neg hk, WSB.alookup, List.find?_append, WSB.alookup]
      have hlast : List.find? (fun p => decide (p.1 = k)) [(s.ticker, s)] = none := by
        simp [List.find?, hk]
      rw [hlast, Option.or_none]

theorem WSB.alookup_foldl (k : String) :
    ∀ (l : List WSB.Signal) (m : List (String × WSB.Signal)),
      WSB.alookup k (l.foldl WSB.upsertSignal m) =
        (l.reverse.find? (fun x => decide (x.ticker = k))).or (WSB.alookup k m) := by
  intro l
  induction l with
  | nil => intro m; simp
  | cons s l ih =>
    intro m
    rw [List.foldl_cons, ih, List.reverse_cons, List.find?_append, Option.or_assoc]
    congr 1
    rw [WSB.alookup_upsert]
    by_cases hk : s.ticker = k
    · rw [if_pos hk]
      have : List.find? (fun x => decide (x.ticker = k)) [s] = some s := by
        simp [List.find?, hk]
      rw [this]
      rfl
    · rw [if_neg hk]
      have : List.find? (fun x => decide (x.ticker = k)) [s] = none := by
        simp [List.find?, hk]
      rw [this, Option.none_or]

theorem WSB.alookup_latestByTicker (signals : List WSB.Signal) (k : String) :
    WSB.alookup k (WSB.latestByTicker signals) =
      signals.find? (fun x => decide (x.ticker = k)) := by
  rw [WSB.latestByTicker, WSB.alookup_foldl, List.reverse_reverse]
  have : WSB.alookup k [] = none := rfl
  rw [this, Option.or_none]

theorem WSB.keysOK_upsert {m : List (String × WSB.Signal)} {s : WSB.Signal}
    (h : WSB.KeysOK m) : WSB.KeysOK (WSB.upsertSignal m s) := by
  rw [WSB.upsertSignal]
  split
  · intro p hp
    obtain ⟨q, hq, hqe⟩ := List.mem_map.mp hp
    by_cases hqs : q.1 = s.ticker
    · rw [if_pos hqs] at hqe
      rw [← hqe]
      simpa using hqs.symm
    · rw [if_neg hqs] at hqe
      rw [← hqe]
      exact h q hq
  · intro p hp
    rcases List.mem_append.mp hp with hp | hp
    · exact h p hp
    · simp at hp
      rw [hp]

theorem WSB.keys_nodup_upsert {m : List (String × WSB.Signal)} {s : WSB.Signal}
    (h : (m.map Prod.fst).Nodup) : ((WSB.upsertSignal m s).map Prod.fst).Nodup := by
  rw [WSB.upsertSignal]
  split
  · have : (m.map (fun p => if p.1 = s.ticker then (p.1, s) else p)).map Prod.fst =
        m.map Prod.fst := by
      rw [List.map_map]
      apply List.map_congr_left
      intro p _
      by_cases hp : p.1 = s.ticker
      · simp [hp]
      · simp [hp]
    rw [this]
    exact h
  · rename_i hany
    rw [List.map_append, List.nodup_append]
    refine ⟨h, by simp, ?_⟩
    rw [List.map_singleton, List.disjoint_singleton]
    intro hc
    obtain ⟨p, hp, hpe⟩ := List.mem_map.mp hc
    exact hany (List.any_eq_true.mpr ⟨p, hp, by simpa using hpe⟩)

theorem WSB.latestByTicker_keysOK (signals : List WSB.Signal) : WSB.KeysOK (WSB.latestByTicker signals) := by
  rw [WSB.latestByTicker]
  generalize signals.reverse = l
  have base : WSB.KeysOK ([] : List (String × WSB.Signal)) := by intro p hp; simp at hp
  revert base
  generalize ([] : List (String × WSB.Signal)) = m
  induction l generalizing m with
  | nil => intro h; exact h
  | cons s l ih =>
    intro h
    rw [List.foldl_cons]
    exact ih _ (WSB.keysOK_upsert h)

theorem WSB.latestByTicker_keys_nodup (signals : List WSB.Signal) :
    ((WSB.latestByTicker signals).map Prod.fst).Nodup := by
  rw [WSB.latestByTicker]
  generalize signals.reverse = l
  have base : (([] : List (String × WSB.Signal)).map Prod.fst).Nodup := by simp
  revert base
  generalize ([] : List (String × WSB.Signal)) = m
  induction l generalizing m with
  | nil => intro h; exact h
  | cons s l ih =>
    intro h
    rw [List.foldl_cons]
    exact ih _ (WSB.keys_nodup_upsert h)

theorem WSB.alookup_of_mem_values {m : List (String × WSB.Signal)}
    (hok : WSB.KeysOK m) (hnd : (m.map Prod.fst).Nodup) :
    ∀ s ∈ m.map Prod.snd, WSB.alookup s.ticker m = some s := by
  induction m with
  | nil => intro s hs; simp at hs
  | cons p m ih =>
    have hnd2 : (p.1 :: m.map Prod.fst).Nodup := by simpa using hnd
    intro s hs
    rcases List.mem_map.mp hs with ⟨q, hq, hqe⟩
    rcases List.mem_cons.mp hq with hq1 | hq2
    · have hps : p.2 = s := by rw [hq1] at hqe; exact hqe
      have hpt : p.1 = s.ticker := by
        rw [← hps, hok p (List.mem_cons_self p m)]
      rw [WSB.alookup, List.find?_cons_of_pos _ (by simpa using hpt)]
      simp [hps]
    · have hsm : s ∈ m.map Prod.snd := List.mem_map.mpr ⟨q, hq2, hqe⟩
      have hokm : WSB.KeysOK m := fun r hr => hok r (List.mem_cons_of_mem p hr)
      have hndm : (m.map Prod.fst).Nodup := (List.nodup_cons.mp hnd2).2
      have hne : ¬ p.1 = s.ticker := by
        intro hc
        have hqt : s.ticker = q.1 := by rw [← hqe]; exact hok q hq
        have hpk : p.1 ∈ m.map Prod.fst := by
          rw [hc, hqt]
          exact List.mem_map.mpr ⟨q, hq2, rfl⟩
        exact (List.nodup_cons.mp hnd2).1 hpk
      rw [WSB.alookup, List.find?_cons_of_neg _ (by simpa using hne)]
      exact ih hokm hndm s hsm

theorem WSB.alookup_isSome_iff (k : String) (m : List (String × WSB.Signal)) :
    (WSB.alookup k m).isSome = true ↔ k ∈ m.map Prod.fst := by
  constructor
  · intro h
    rw [WSB.alookup] at h
    cases hf : m.find? (fun p => decide (p.1 = k)) with
    | none => rw [hf] at h; simp at h
    | some p =>
      have hpk : p.1 = k := by simpa using List.find?_some hf
      exact List.mem_map.mpr ⟨p, List.mem_of_find?_eq_some hf, hpk⟩
  · intro hk
    obtain ⟨p, hp, hpe⟩ := List.mem_map.mp hk
    rw [WSB.alookup]
    have hsome : (m.find? (fun p => decide (p.1 = k))).isSome = true :=
      List.find?_isSome.mpr ⟨p, hp, by simpa using hpe⟩
    cases hf : m.find? (fun p => decide (p.1 = k)) with
    | none => rw [hf] at hsome; simp at hsome
    | some q => rfl

theorem WSB.insertByScore_perm (s : WSB.Signal) : ∀ l, (WSB.insertByScore s l).Perm (s :: l) := by
  intro l
  induction l with
  | nil => rfl
  | cons q rest ih =>
    rw [WSB.insertByScore]
    split
    · rfl
    · exact (List.Perm.cons q ih).trans (List.Perm.swap s q rest)

theorem WSB.sortByScore_perm : ∀ l, (WSB.sortByScore l).Perm l := by
  intro l
  induction l with
  | nil => rfl
  | cons s rest ih =>
    rw [WSB.sortByScore]
    exact (WSB.insertByScore_perm s (WSB.sortByScore rest)).trans (List.Perm.cons s ih)

theorem WSB.insertByScore_sorted (s : WSB.Signal) :
    ∀ l, l.Pairwise (fun a b => b.score ≤ a.score) →
      (WSB.insertByScore s l).Pairwise (fun a b => b.score ≤ a.score) := by
  intro l
  induction l with
  | nil => intro _; simp [WSB.insertByScore]
  | cons q rest ih =>
    intro h
    obtain ⟨hq, hrest⟩ := List.pairwise_cons.mp h
    rw [WSB.insertByScore]
    split
    · rename_i hlt
      refine List.pairwise_cons.mpr ⟨?_, h⟩
      intro b hb
      rcases List.mem_cons.mp hb with hb | hb
      · rw [hb]; exact le_of_lt hlt
      · exact le_trans (hq b hb) (le_of_lt hlt)
    · rename_i hnlt
      refine List.pairwise_cons.mpr ⟨?_, ih hrest⟩
      intro b hb
      have hb2 := (WSB.insertByScore_perm s rest).mem_iff.mp hb
      rcases List.mem_cons.mp hb2 with hb2 | hb2
      · rw [hb2]; exact not_lt.mp hnlt
      · exact hq b hb2

theorem WSB.sortByScore_sorted : ∀ l, (WSB.sortByScore l).Pairwise (fun a b => b.score ≤ a.score) := by
  intro l
  induction l with
  | nil => simp [WSB.sortByScore]
  | cons s rest ih =>
    rw [WSB.sortByScore]
    exact WSB.insertByScore_sorted s _ ih

theorem WSB.values_ticker_eq_keys {m : List (String × WSB.Signal)} (hok : WSB.KeysOK m) :
    (m.map Prod.snd).map WSB.Signal.ticker = m.map Prod.fst := by
  rw [List.map_map]
  exact List.map_congr_left (fun p hp => hok p hp)

/-- Claim C10: for every input signals array, WatchlistSidebar shows the
rows sorted by score in descending order, with exactly one row per
distinct ticker (the row tickers are duplicate-free and cover exactly the
input's tickers), and the row shown for a ticker is the first signal with
that ticker in array order - the reversed overwrite pass keeps the
earliest-index occurrence; the embedding is a pure function of the input
list, which the component copies before reversing. -/
theorem C10_watchlist_rows (signals : List WSB.Signal) :
    (WSB.watchlistRows signals).Pairwise (fun a b => b.score ≤ a.score) ∧
    ((WSB.watchlistRows signals).map WSB.Signal.ticker).Nodup ∧
    (∀ s ∈ WSB.watchlistRows signals,
      signals.find? (fun x => decide (x.ticker = s.ticker)) = some s) ∧
    (∀ k, k ∈ (WSB.watchlistRows signals).map WSB.Signal.ticker ↔
      k ∈ signals.map WSB.Signal.ticker) := by
  have hok := WSB.latestByTicker_keysOK signals
  have hnd := WSB.latestByTicker_keys_nodup signals
  have hperm : (WSB.watchlistRows signals).Perm ((WSB.latestByTicker signals).map Prod.snd) :=
    WSB.sortByScore_perm _
  have hpermt := hperm.map WSB.Signal.ticker
  refine ⟨WSB.sortByScore_sorted _, ?_, ?_, ?_⟩
  · rw [hpermt.nodup_iff, WSB.values_ticker_eq_keys hok]
    exact hnd
  · intro s hs
    have hsv : s ∈ (WSB.latestByTicker signals).map Prod.snd := hperm.mem_iff.mp hs
    rw [← WSB.alookup_latestByTicker]
    exact WSB.alookup_of_mem_values hok hnd s hsv
  · intro k
    rw [hpermt.mem_iff, WSB.values_ticker_eq_keys hok, ← WSB.alookup_isSome_iff,
        WSB.alookup_latestByTicker, List.find?_isSome]
    constructor
    · intro hk
      obtain ⟨x, hx, hxe⟩ := hk
      exact List.mem_map.mpr ⟨x, hx, by simpa using hxe⟩
    · intro hk
      obtain ⟨x, hx, hxe⟩ := List.mem_map.mp hk
      exact ⟨x, hx, by simpa using hxe⟩

attribute [local semireducible] Rat.mul Rat.add Rat.sub Rat.inv in
/-- Witness for C10: with two GME signals and one TSLA signal, the rows
contain the first GME signal in array order, and that row is exactly the
earliest-index GME occurrence of the input. -/
theorem C10_watchlist_rows_witness :
    WSB.sigA ∈ WSB.watchlistRows [WSB.sigA, WSB.sigB, WSB.sigC] ∧
    [WSB.sigA, WSB.sigB, WSB.sigC].find?
        (fun x => decide (x.ticker = WSB.sigA.ticker)) = some WSB.sigA :=
  ⟨by decide, (C10_watchlist_rows [WSB.sigA, WSB.sigB, WSB.sigC]).2.2.1 WSB.sigA (by decide)⟩
